import Mathlib

/-!
Verification of the boltviewer plugin (src/main.go): a thin nvim shim over a
bbolt key-value store.  Buffer lines are modelled as `List Char` (a vim line
never contains a newline; the regex semantics below nevertheless treat '\n'
faithfully, since Go's `.` does not match it while negated classes do).
The store is modelled as an association list of buckets, each an association
list of key/value pairs; bbolt keeps bucket names and keys unique, so the
first-match operations below coincide with bbolt's unique-match behaviour on
every reachable store.
-/

set_option autoImplicit false

namespace Boltviewer

abbrev Line := List Char

/-- Character class `[ \t]` of both source regexes. -/
def isWs (c : Char) : Bool := c = ' ' || c = '\t'

/-- Character class `[^ \=]` of `EntryRegex`'s key group: anything but a space
or an equals sign (a negated Go class also matches '\n'). -/
def isKeyChar (c : Char) : Bool := c ≠ ' ' && c ≠ '='

/-- Go's `.`: any character except '\n'. -/
def isDot (c : Char) : Bool := c ≠ '\n'

/-- `HasLeadingSpace = regexp.MustCompile("^[ \t]+.*$")` applied via
`MatchString`: the string must decompose as a nonempty run of space/tab
followed by '\n'-free text, i.e. its first character is a space or tab and no
character anywhere is a newline ('$' is end of text in Go's default mode). -/
def HasLeadingSpace : Line → Bool
  | [] => false
  | c :: cs => isWs c && (c :: cs).all isDot

/-- Whether a line begins with a space or tab (the claim-level notion of
"indented"; it agrees with `HasLeadingSpace` on newline-free lines). -/
def startsWs : Line → Bool
  | [] => false
  | c :: _ => isWs c

/-- Whether the line starts with the literal "=>". -/
def startsArrow : Line → Bool
  | '=' :: '>' :: _ => true
  | _ => false

/-- Whether the literal "=>" occurs anywhere in the line. -/
def hasArrow : Line → Bool
  | [] => false
  | c :: rest => startsArrow (c :: rest) || hasArrow rest

/-- One attempt of `EntryRegex` after the leading `[ \t]+` has consumed a
prefix: the key group `([^ \=]*)` takes exactly `k` characters, then
`[ \t]*\=\>` must follow (the `[ \t]*` is forced maximal: a shorter run would
leave a space/tab where '=' is required), then `[ \t]*([^ \t].*)$` fixes the
value group (again the run is forced maximal, and `.*` must reach the end
without crossing '\n'). -/
def tryKey (t : Line) (k : Nat) : Option (Line × Line) :=
  if (t.take k).all isKeyChar then
    match (t.drop k).dropWhile isWs with
    | '=' :: '>' :: r3 =>
      match r3.dropWhile isWs with
      | [] => none
      | c :: cs => if cs.all isDot then some (t.take k, c :: cs) else none
    | _ => none
  else none

/-- Greedy key group: try the longest candidate first, as backtracking does. -/
def keyDescend (t : Line) : Nat → Option (Line × Line)
  | 0 => tryKey t 0
  | k + 1 =>
    match tryKey t (k + 1) with
    | some r => some r
    | none => keyDescend t k

/-- All key-group lengths for the remainder `t`, longest first. -/
def tryKeys (t : Line) : Option (Line × Line) := keyDescend t t.length

/-- Greedy leading `[ \t]+`: consume `i` characters of the leading whitespace
run, longest first, never zero. -/
def wsDescend (l : Line) : Nat → Option (Line × Line)
  | 0 => none
  | i + 1 =>
    match tryKeys (l.drop (i + 1)) with
    | some r => some r
    | none => wsDescend l i

/-- `EntryRegex = regexp.MustCompile("^[ \t]+([^ \=]*)[ \t]*\=\>[ \t]*([^ \t].*)$")`
applied via `FindStringSubmatch`: `some (key, value)` models a length-3 result
(whole match plus the two groups), `none` models no match.  Go's RE2 uses
leftmost-first (backtracking-priority) submatch semantics, realised here by
trying the greedy quantifiers longest-first. -/
def EntryRegex (l : Line) : Option (Line × Line) :=
  wsDescend l (l.takeWhile isWs).length

/-! ## The store model (bbolt) -/

abbrev Entries := List (Line × Line)

abbrev Store := List (Line × Entries)

/-- `tx.Bucket(name)`: `none` models the nil bucket handle. -/
def lookupBucket : Store → Line → Option Entries
  | [], _ => none
  | (m, es) :: rest, n => if m = n then some es else lookupBucket rest n

/-- `bkt.Get`-style lookup of a key inside an entry list. -/
def lookupKey : Entries → Line → Option Line
  | [], _ => none
  | (k0, v0) :: rest, k => if k0 = k then some v0 else lookupKey rest k

/-- Insert-or-replace of a key in a bucket's entry list (`bkt.Put` effect). -/
def putKey : Entries → Line → Line → Entries
  | [], k, v => [(k, v)]
  | (k0, v0) :: rest, k, v =>
    if k0 = k then (k0, v) :: rest else (k0, v0) :: putKey rest k v

/-- Removal of a key from a bucket's entry list (`bkt.Delete` effect; deleting
an absent key is a no-op returning nil, as in bbolt). -/
def delKey : Entries → Line → Entries
  | [], _ => []
  | (k0, v0) :: rest, k => if k0 = k then rest else (k0, v0) :: delKey rest k

/-- Update of the (unique) bucket named `n` inside the store. -/
def putBucketKey : Store → Line → Line → Line → Store
  | [], _, _, _ => []
  | (m, es) :: rest, n, k, v =>
    if m = n then (m, putKey es k v) :: rest
    else (m, es) :: putBucketKey rest n k v

/-- Key removal inside the (unique) bucket named `n`. -/
def delBucketKey : Store → Line → Line → Store
  | [], _, _ => []
  | (m, es) :: rest, n, k =>
    if m = n then (m, delKey es k) :: rest else (m, es) :: delBucketKey rest n k

/-- `tx.DeleteBucket(name)` effect (the code only calls it on an existing
bucket). -/
def delBucket : Store → Line → Store
  | [], _ => []
  | (m, es) :: rest, n => if m = n then rest else (m, es) :: delBucket rest n

/-- `tx.CreateBucketIfNotExists(name)`: bbolt rejects an empty bucket name
(`ErrBucketNameRequired`) before looking it up; otherwise an existing bucket
is returned unchanged and a missing one is created empty.  (bbolt's size
limit on very long names is not modelled.) -/
def createBucketIfNotExists (s : Store) (n : Line) : Except String Store :=
  if n = [] then .error "bucket name required"
  else
    match lookupBucket s n with
    | some _ => .ok s
    | none => .ok (s ++ [(n, [])])

/-- `bkt.Put(key, value)` on a store in which bucket `n` exists: bbolt rejects
an empty key (`ErrKeyRequired`).  (bbolt's size limits on very long keys and
values are not modelled.) -/
def putStore (s : Store) (n k v : Line) : Except String Store :=
  if k = [] then .error "key required" else .ok (putBucketKey s n k v)

def matchFailMsg : String := "failed to match key => val"

def bucketHasEntryMsg : String := "bucket has entry, should delete entry first"

def openFailMsg : String := "failed to open bolt"

/-! ## The two buffer operations

Each takes the bucket name the editor supplies (`vim.Call("GetBoltBucket")`)
and the evaluated current line, plus the current store.  `db.Update` rolls the
store back when its transaction function returns an error.
`DeleteBucketOrEntry` additionally reports whether `deleteLine` ran (the
buffer-line side effect, which is not transactional). -/

/-- `DeleteBucketOrEntry` from src/main.go: on an indented line, parse
`key => value`, create the context bucket if absent, delete the buffer line and
the key; on a malformed indented line report the parse error; on a bucket line,
silently ignore a missing bucket, delete an empty bucket together with its
buffer line, and refuse to delete a non-empty one. -/
def DeleteBucketOrEntry (bktname eval : Line) (s : Store) :
    Store × Bool × Option String :=
  if HasLeadingSpace eval then
    match EntryRegex eval with
    | some (key, _) =>
      match createBucketIfNotExists s bktname with
      | .error e => (s, false, some e)
      | .ok s1 => (delBucketKey s1 bktname key, true, none)
    | none => (s, false, some matchFailMsg)
  else
    match lookupBucket s bktname with
    | none => (s, false, none)
    | some es =>
      match es with
      | [] => (delBucket s bktname, true, none)
      | _ :: _ => (s, false, some bucketHasEntryMsg)

/-- `CreateBucketOrEntry` from src/main.go: on an indented line, parse
`key => value` and put it into the context bucket (created if absent); on a
malformed indented line report the parse error; on a bucket line create the
bucket if absent.  In both create branches the error result of `db.Update` is
discarded, so a failed transaction rolls back yet the function returns nil. -/
def CreateBucketOrEntry (bktname eval : Line) (s : Store) :
    Store × Option String :=
  if HasLeadingSpace eval then
    match EntryRegex eval with
    | some (key, value) =>
      let s' :=
        match createBucketIfNotExists s bktname with
        | .error _ => s
        | .ok s1 =>
          match putStore s1 bktname key value with
          | .error _ => s
          | .ok s2 => s2
      (s', none)
    | none => (s, some matchFailMsg)
  else
    let s' :=
      match createBucketIfNotExists s bktname with
      | .error _ => s
      | .ok s1 => s1
    (s', none)

/-! ## Rendering and reading back the listing -/

/-- One entry line as produced by `fmt.Sprintf("\t%s => %s", k, v)` in
`LoadBolt`. -/
def renderEntry (kv : Line × Line) : Line :=
  '\t' :: (kv.1 ++ ' ' :: '=' :: '>' :: ' ' :: kv.2)

/-- One bucket's lines in `LoadBolt`: the bare name, then its entry lines. -/
def renderBucket (b : Line × Entries) : List Line :=
  b.1 :: b.2.map renderEntry

/-- The whole listing `LoadBolt` writes into the buffer. -/
def renderStore : Store → List Line
  | [] => []
  | b :: rest => renderBucket b ++ renderStore rest

/-- Appending a parsed entry to the most recently read bucket. -/
def appendLast : Store → Line → Line → Store
  | [], _, _ => []
  | [b], k, v => [(b.1, b.2 ++ [(k, v)])]
  | b :: b2 :: rest, k, v => b :: appendLast (b2 :: rest) k v

/-- Modelled from the spec: the read-back direction of the listing round trip
("parsed back with a fixed two-group pattern").  The repository parses lines
individually (`EntryRegex` plus the editor-side bucket lookup), so the whole-
listing reader is reconstructed here: a non-indented line opens a bucket, an
indented line is parsed with the two-group entry pattern into the current
bucket. -/
def stepLine (acc : Store) (l : Line) : Store :=
  if HasLeadingSpace l then
    match EntryRegex l with
    | some (k, v) => appendLast acc k v
    | none => acc
  else acc ++ [(l, [])]

/-- Modelled from the spec: parse a rendered listing back into a store. -/
def parseBack (ls : List Line) : Store := ls.foldl stepLine []

/-! ## Side conditions under which the listing round-trips -/

/-- A key that survives the round trip: nonempty (bbolt guarantees this for
every stored key), free of ' ', '=' and '\n', and not starting with a tab
(which the leading `[ \t]+` would swallow). -/
def goodKey : Line → Bool
  | [] => false
  | c :: cs => c ≠ '\t' && (c :: cs).all (fun x => x ≠ ' ' && x ≠ '=' && x ≠ '\n')

/-- A value that survives the round trip: nonempty, not starting with a space
or tab, and free of '\n'. -/
def goodVal : Line → Bool
  | [] => false
  | c :: cs => !isWs c && (c :: cs).all isDot

def goodEntry (kv : Line × Line) : Bool := goodKey kv.1 && goodVal kv.2

/-- A bucket that survives the round trip: its name line is not mistaken for
an entry line, and all entries are good. -/
def goodBucket (b : Line × Entries) : Bool :=
  !HasLeadingSpace b.1 && b.2.all goodEntry

def goodStore (s : Store) : Bool := s.all goodBucket

/-! ## `CreateBolt` / `LoadBolt` open behaviour -/

/-- `CreateBolt` from src/main.go, abstracted over the outcome of the external
`bbolt.Open` call (the underlying error is a string message): any open failure
is replaced by the fixed message, success returns nil. -/
def CreateBolt (openRes : Except String Unit) : Option String :=
  match openRes with
  | .error _ => some openFailMsg
  | .ok _ => none

/-- `LoadBolt` from src/main.go, abstracted over the outcome of the external
`bbolt.Open` call: any open failure is replaced by the fixed message; on
success the store's listing is rendered into the buffer. -/
def LoadBolt (openRes : Except String Store) : Except String (List Line) :=
  match openRes with
  | .error _ => .error openFailMsg
  | .ok s => .ok (renderStore s)

/-! ## Lemmas about the entry pattern -/

lemma takeWhile_isWs_nil {l : Line} (h : startsWs l = false) :
    l.takeWhile isWs = [] := by
  cases l with
  | nil => rfl
  | cons c cs =>
    simp only [startsWs] at h
    simp [List.takeWhile_cons, h]

lemma EntryRegex_none_of_not_startsWs {l : Line} (h : startsWs l = false) :
    EntryRegex l = none := by
  unfold EntryRegex
  rw [takeWhile_isWs_nil h]
  rfl

lemma tryKey_some_startsArrow {t : Line} {k : Nat} {r : Line × Line}
    (h : tryKey t k = some r) :
    startsArrow ((t.drop k).dropWhile isWs) = true := by
  unfold tryKey at h
  split at h
  · split at h
    · rename_i r3 heq
      rw [heq]
      rfl
    · exact absurd h (by simp)
  · exact absurd h (by simp)

lemma keyDescend_some {t : Line} {r : Line × Line} :
    ∀ n, keyDescend t n = some r → ∃ k, tryKey t k = some r
  | 0, h => ⟨0, h⟩
  | n + 1, h => by
    unfold keyDescend at h
    split at h
    · rename_i r2 htk
      exact ⟨n + 1, htk.trans h⟩
    · exact keyDescend_some n h

lemma wsDescend_some {l : Line} {r : Line × Line} :
    ∀ n, wsDescend l n = some r → ∃ i, tryKeys (l.drop i) = some r
  | 0, h => by simp [wsDescend] at h
  | n + 1, h => by
    unfold wsDescend at h
    split at h
    · rename_i r2 htk
      exact ⟨n + 1, htk.trans h⟩
    · exact wsDescend_some n h

lemma hasArrow_of_startsArrow_suffix {l : Line} :
    ∀ {s : Line}, s <:+ l → startsArrow s = true → hasArrow l = true := by
  induction l with
  | nil =>
    intro s hs ha
    rw [List.suffix_nil] at hs
    subst hs
    simp [startsArrow] at ha
  | cons c rest ih =>
    intro s hs ha
    rcases List.suffix_cons_iff.mp hs with h | h
    · subst h
      simp [hasArrow, ha]
    · simp [hasArrow, ih h ha]

lemma EntryRegex_some_hasArrow {l : Line} {r : Line × Line}
    (h : EntryRegex l = some r) : hasArrow l = true := by
  obtain ⟨i, hi⟩ := wsDescend_some _ h
  obtain ⟨k, hk⟩ := keyDescend_some _ hi
  have ha := tryKey_some_startsArrow hk
  have hsuf : (((l.drop i).drop k).dropWhile isWs) <:+ l :=
    (List.dropWhile_suffix _).trans
      ((List.drop_suffix _ _).trans (List.drop_suffix _ _))
  exact hasArrow_of_startsArrow_suffix hsuf ha

lemma hasLeadingSpace_eq (l : Line) :
    HasLeadingSpace l = (startsWs l && l.all isDot) := by
  cases l <;> rfl

/-! ## Lemmas about the store operations -/

lemma lookupBucket_none_of_not_mem {s : Store} {n : Line}
    (h : n ∉ s.map Prod.fst) : lookupBucket s n = none := by
  induction s with
  | nil => rfl
  | cons b rest ih =>
    obtain ⟨m, es⟩ := b
    simp only [List.map_cons, List.mem_cons] at h
    push_neg at h
    rw [lookupBucket, if_neg (fun hmn => h.1 hmn.symm)]
    exact ih h.2

lemma lookupBucket_delBucket {s : Store} {n : Line}
    (hnd : (s.map Prod.fst).Nodup) :
    lookupBucket (delBucket s n) n = none := by
  induction s with
  | nil => rfl
  | cons b rest ih =>
    obtain ⟨m, es⟩ := b
    simp only [List.map_cons, List.nodup_cons] at hnd
    rw [delBucket]
    by_cases hmn : m = n
    · rw [if_pos hmn]
      subst hmn
      exact lookupBucket_none_of_not_mem hnd.1
    · rw [if_neg hmn, lookupBucket, if_neg hmn]
      exact ih hnd.2

lemma lookupKey_putKey {es : Entries} {k v : Line} :
    lookupKey (putKey es k v) k = some v := by
  induction es with
  | nil => simp [putKey, lookupKey]
  | cons e rest ih =>
    obtain ⟨k0, v0⟩ := e
    rw [putKey]
    by_cases hk : k0 = k
    · rw [if_pos hk, lookupKey, if_pos hk]
    · rw [if_neg hk, lookupKey, if_neg hk]
      exact ih

lemma lookupBucket_putBucketKey {s : Store} {n k v : Line} {es : Entries}
    (h : lookupBucket s n = some es) :
    lookupBucket (putBucketKey s n k v) n = some (putKey es k v) := by
  induction s with
  | nil => simp [lookupBucket] at h
  | cons b rest ih =>
    obtain ⟨m, es'⟩ := b
    rw [lookupBucket] at h
    rw [putBucketKey]
    by_cases hmn : m = n
    · rw [if_pos hmn] at h
      rw [if_pos hmn, lookupBucket, if_pos hmn]
      rw [Option.some_inj] at h
      rw [h]
    · rw [if_neg hmn] at h
      rw [if_neg hmn, lookupBucket, if_neg hmn]
      exact ih h

lemma delBucketKey_append {s : Store} {n k : Line} {es : Entries}
    (h : lookupBucket s n = none) :
    delBucketKey (s ++ [(n, es)]) n k = s ++ [(n, delKey es k)] := by
  induction s with
  | nil => simp [delBucketKey]
  | cons b rest ih =>
    obtain ⟨m, es'⟩ := b
    rw [lookupBucket] at h
    by_cases hmn : m = n
    · rw [if_pos hmn] at h
      exact absurd h (by simp)
    · rw [if_neg hmn] at h
      simp only [List.cons_append]
      rw [delBucketKey, if_neg hmn]
      rw [ih h]

lemma lookupBucket_append {s : Store} {n : Line} {es : Entries}
    (h : lookupBucket s n = none) :
    lookupBucket (s ++ [(n, es)]) n = some es := by
  induction s with
  | nil => simp [lookupBucket]
  | cons b rest ih =>
    obtain ⟨m, es'⟩ := b
    rw [lookupBucket] at h
    by_cases hmn : m = n
    · rw [if_pos hmn] at h
      exact absurd h (by simp)
    · rw [if_neg hmn] at h
      simp only [List.cons_append]
      rw [lookupBucket, if_neg hmn]
      exact ih h

/-! ## Lemmas for the listing round trip -/

lemma goodKey_all_isKeyChar {k : Line} (h : goodKey k = true) :
    k.all isKeyChar = true := by
  cases k with
  | nil => rfl
  | cons c cs =>
    simp only [goodKey, Bool.and_eq_true, List.all_eq_true, decide_eq_true_eq] at h
    simp only [List.all_eq_true, isKeyChar, Bool.and_eq_true, decide_eq_true_eq]
    intro x hx
    exact ⟨(h.2 x hx).1.1, (h.2 x hx).1.2⟩

lemma goodKey_all_isDot {k : Line} (h : goodKey k = true) :
    k.all isDot = true := by
  cases k with
  | nil => rfl
  | cons c cs =>
    simp only [goodKey, Bool.and_eq_true, List.all_eq_true, decide_eq_true_eq] at h
    simp only [List.all_eq_true, isDot, decide_eq_true_eq]
    intro x hx
    exact (h.2 x hx).2

lemma goodVal_all_isDot {v : Line} (h : goodVal v = true) :
    v.all isDot = true := by
  cases v with
  | nil => rfl
  | cons d ds =>
    simp only [goodVal, Bool.and_eq_true] at h
    exact h.2

lemma keyDescend_hit {t : Line} {k0 : Nat} {r : Line × Line}
    (hnone : ∀ j, k0 < j → tryKey t j = none) (hhit : tryKey t k0 = some r) :
    ∀ n, k0 ≤ n → keyDescend t n = some r := by
  intro n
  induction n with
  | zero =>
    intro hle
    have h0 : k0 = 0 := Nat.le_zero.mp hle
    subst h0
    exact hhit
  | succ m ih =>
    intro hle
    rcases Nat.eq_or_lt_of_le hle with he | hlt
    · unfold keyDescend
      rw [← he, hhit]
    · have hm : k0 ≤ m := Nat.lt_succ_iff.mp hlt
      unfold keyDescend
      rw [hnone (m + 1) hlt]
      exact ih hm

lemma tryKey_none_of_gt (k rest : Line) (j : Nat) (hj : k.length < j) :
    tryKey (k ++ ' ' :: rest) j = none := by
  have h1 : (k ++ ' ' :: rest).take j = k ++ ' ' :: rest.take (j - k.length - 1) := by
    rw [List.take_append_eq_append_take]
    congr 1
    · exact List.take_of_length_le (Nat.le_of_lt hj)
    · have h2 : j - k.length = (j - k.length - 1) + 1 := by omega
      rw [h2]
      rfl
  unfold tryKey
  rw [h1, List.all_append]
  simp [isKeyChar, List.all_cons]

lemma tryKey_hit (k v : Line) (hkc : k.all isKeyChar = true)
    (hv : goodVal v = true) :
    tryKey (k ++ ' ' :: '=' :: '>' :: ' ' :: v) k.length = some (k, v) := by
  obtain ⟨d, ds, rfl⟩ : ∃ d ds, v = d :: ds := by
    cases v with
    | nil => simp [goodVal] at hv
    | cons d ds => exact ⟨d, ds, rfl⟩
  simp only [goodVal, Bool.and_eq_true, List.all_cons] at hv
  have hd : isWs d = false := by
    have := hv.1
    rwa [Bool.not_eq_true'] at this
  have hds : ds.all isDot = true := hv.2.2
  have hdd : isDot d = true := hv.2.1
  have hsp : isWs ' ' = true := rfl
  have heq : isWs '=' = false := rfl
  simp [tryKey, List.take_left, List.drop_left, hkc, List.dropWhile_cons,
    hsp, heq, hd, hds]

lemma EntryRegex_renderEntry {k v : Line} (hk : goodKey k = true)
    (hv : goodVal v = true) :
    EntryRegex (renderEntry (k, v)) = some (k, v) := by
  obtain ⟨c, cs, rfl⟩ : ∃ c cs, k = c :: cs := by
    cases k with
    | nil => simp [goodKey] at hk
    | cons c cs => exact ⟨c, cs, rfl⟩
  have hct : c ≠ '\t' ∧ c ≠ ' ' := by
    simp only [goodKey, Bool.and_eq_true, List.all_eq_true, decide_eq_true_eq] at hk
    exact ⟨hk.1, (hk.2 c (List.mem_cons_self c cs)).1.1⟩
  have hcw : isWs c = false := by
    simp [isWs, hct.1, hct.2]
  have htb : isWs '\t' = true := rfl
  have hTW : ((renderEntry (c :: cs, v)).takeWhile isWs) = ['\t'] := by
    simp [renderEntry, List.takeWhile_cons, htb, hcw]
  have hkc : (c :: cs).all isKeyChar = true := goodKey_all_isKeyChar hk
  have hhit := tryKey_hit (c :: cs) v hkc hv
  have hnone : ∀ j, (c :: cs).length < j →
      tryKey ((c :: cs) ++ ' ' :: '=' :: '>' :: ' ' :: v) j = none :=
    fun j hj => tryKey_none_of_gt (c :: cs) ('=' :: '>' :: ' ' :: v) j hj
  have htks : tryKeys ((c :: cs) ++ ' ' :: '=' :: '>' :: ' ' :: v) =
      some (c :: cs, v) := by
    unfold tryKeys
    refine keyDescend_hit hnone hhit _ ?_
    simp [List.length_append]
  have hdrop : (renderEntry (c :: cs, v)).drop (0 + 1) =
      (c :: cs) ++ ' ' :: '=' :: '>' :: ' ' :: v := rfl
  unfold EntryRegex
  rw [hTW]
  show wsDescend (renderEntry (c :: cs, v)) 1 = some (c :: cs, v)
  unfold wsDescend
  rw [hdrop, htks]

lemma hasLeadingSpace_renderEntry {k v : Line} (hk : goodKey k = true)
    (hv : goodVal v = true) :
    HasLeadingSpace (renderEntry (k, v)) = true := by
  have htd : isDot '\t' = true := rfl
  simp [renderEntry, HasLeadingSpace, List.all_append, List.all_cons, htd,
    goodKey_all_isDot hk, goodVal_all_isDot hv, isWs, isDot]

lemma appendLast_concat : ∀ (acc : Store) (n : Line) (es : Entries) (k v : Line),
    appendLast (acc ++ [(n, es)]) k v = acc ++ [(n, es ++ [(k, v)])]
  | [], _, _, _, _ => rfl
  | [_], _, _, _, _ => rfl
  | b :: b2 :: acc', n, es, k, v => by
    show b :: appendLast ((b2 :: acc') ++ [(n, es)]) k v =
      b :: ((b2 :: acc') ++ [(n, es ++ [(k, v)])])
    rw [appendLast_concat (b2 :: acc') n es k v]

lemma foldl_step_entries (acc : Store) (n : Line) :
    ∀ (es es0 : Entries), es.all goodEntry = true →
      List.foldl stepLine (acc ++ [(n, es0)]) (es.map renderEntry) =
        acc ++ [(n, es0 ++ es)]
  | [], es0, _ => by simp
  | (k, v) :: es', es0, hall => by
    simp only [List.all_cons, Bool.and_eq_true, goodEntry] at hall
    obtain ⟨⟨hk, hv⟩, hall'⟩ := hall
    have hstep : stepLine (acc ++ [(n, es0)]) (renderEntry (k, v)) =
        acc ++ [(n, es0 ++ [(k, v)])] := by
      simp only [stepLine, hasLeadingSpace_renderEntry hk hv,
        EntryRegex_renderEntry hk hv, if_true]
      exact appendLast_concat acc n es0 k v
    simp only [List.map_cons, List.foldl_cons, hstep]
    rw [foldl_step_entries acc n es' (es0 ++ [(k, v)]) hall']
    simp

lemma foldl_render : ∀ (s : Store) (acc : Store), goodStore s = true →
    List.foldl stepLine acc (renderStore s) = acc ++ s
  | [], acc, _ => by simp [renderStore]
  | (n, es) :: s', acc, hgs => by
    simp only [goodStore, List.all_cons, Bool.and_eq_true, goodBucket] at hgs
    obtain ⟨⟨hn, hes⟩, hs'⟩ := hgs
    have hn' : HasLeadingSpace n = false := by
      rwa [Bool.not_eq_true'] at hn
    have hstep : stepLine acc n = acc ++ [(n, [])] := by
      simp [stepLine, hn']
    show List.foldl stepLine acc ((n :: es.map renderEntry) ++ renderStore s') =
      acc ++ ((n, es) :: s')
    rw [List.foldl_append, List.foldl_cons, hstep,
      foldl_step_entries acc n es [] hes]
    simp only [List.nil_append]
    rw [foldl_render s' (acc ++ [(n, es)]) hs']
    simp

/-! ## The claims -/

/-- Claim C1: the entry line-parsing pattern accepts the tab-indented line
"\tfoo => bar", extracting key "foo" and value "bar"; and it rejects every
line that does not begin with a space or tab, and every line that does not
contain the literal "=>". -/
theorem claim_C1 :
    EntryRegex ['\t', 'f', 'o', 'o', ' ', '=', '>', ' ', 'b', 'a', 'r'] =
      some (['f', 'o', 'o'], ['b', 'a', 'r'])
    ∧ (∀ l : Line, startsWs l = false → EntryRegex l = none)
    ∧ (∀ l : Line, hasArrow l = false → EntryRegex l = none) := by
  refine ⟨by decide, fun l h => EntryRegex_none_of_not_startsWs h, fun l h => ?_⟩
  cases hE : EntryRegex l with
  | none => rfl
  | some r => exact absurd (EntryRegex_some_hasArrow hE) (by simp [h])

theorem claim_C1_wit :
    EntryRegex ['f', 'o', 'o'] = none ∧ EntryRegex ['='] = none :=
  ⟨claim_C1.2.1 ['f', 'o', 'o'] (by decide), claim_C1.2.2 ['='] (by decide)⟩

/-- Claim C2: deleting via a non-indented bucket line succeeds, removing the
bucket and its buffer line, exactly when the bucket exists with zero entries;
when it has at least one entry the operation fails with the precondition
error, leaving the store (and the bucket) unchanged.  Bucket names are unique
in every reachable bbolt store, whence the `Nodup` hypothesis. -/
theorem claim_C2 (s : Store) (bktname eval : Line) (es : Entries)
    (hline : HasLeadingSpace eval = false)
    (hb : lookupBucket s bktname = some es)
    (hnd : (s.map Prod.fst).Nodup) :
    (es = [] →
      DeleteBucketOrEntry bktname eval s = (delBucket s bktname, true, none) ∧
      lookupBucket (delBucket s bktname) bktname = none) ∧
    (es ≠ [] →
      DeleteBucketOrEntry bktname eval s = (s, false, some bucketHasEntryMsg)) := by
  constructor
  · intro he
    subst he
    exact ⟨by simp [DeleteBucketOrEntry, hline, hb], lookupBucket_delBucket hnd⟩
  · intro hne
    obtain ⟨e, es', rfl⟩ : ∃ e es', es = e :: es' := by
      cases es with
      | nil => exact absurd rfl hne
      | cons e es' => exact ⟨e, es', rfl⟩
    simp [DeleteBucketOrEntry, hline, hb]

theorem claim_C2_wit :
    DeleteBucketOrEntry ['b'] ['b'] [(['b'], [])] =
      (delBucket [(['b'], [])] ['b'], true, none) ∧
    lookupBucket (delBucket [(['b'], [])] ['b']) ['b'] = none :=
  (claim_C2 [(['b'], [])] ['b'] ['b'] [] (by decide) (by decide) (by decide)).1 rfl

/-- Claim C3 counterexample: with bucket "b" already holding key "k" (and no
"anyway" mode anywhere in the code), creating the entry "\tk => 2" does not
fail with a conflict error: it returns success and overwrites the value. -/
theorem claim_C3_cex :
    CreateBucketOrEntry ['b'] ['\t', 'k', ' ', '=', '>', ' ', '2']
      [(['b'], [(['k'], ['1'])])] = ([(['b'], [(['k'], ['2'])])], none) := by
  decide

/-- Claim C3 (amended): creating an entry whose key already exists in the
bucket always succeeds — no conflict error is reported and no "anyway"
overwrite mode exists — and the new value overwrites the old one.  Bucket
names and keys are nonempty in every reachable bbolt store. -/
theorem claim_C3 (s : Store) (bktname eval key value : Line) (es : Entries)
    (hws : HasLeadingSpace eval = true)
    (hm : EntryRegex eval = some (key, value))
    (hb : lookupBucket s bktname = some es)
    (_hex : lookupKey es key ≠ none)
    (hbn : bktname ≠ []) (hkn : key ≠ []) :
    CreateBucketOrEntry bktname eval s =
      (putBucketKey s bktname key value, none) ∧
    lookupBucket (putBucketKey s bktname key value) bktname =
      some (putKey es key value) ∧
    lookupKey (putKey es key value) key = some value := by
  refine ⟨?_, lookupBucket_putBucketKey hb, lookupKey_putKey⟩
  simp [CreateBucketOrEntry, hws, hm, createBucketIfNotExists, hbn, hb,
    putStore, hkn]

theorem claim_C3_wit :
    CreateBucketOrEntry ['b'] ['\t', 'j', ' ', '=', '>', ' ', '2']
      [(['b'], [(['j'], ['1'])])] =
      (putBucketKey [(['b'], [(['j'], ['1'])])] ['b'] ['j'] ['2'], none) ∧
    lookupBucket (putBucketKey [(['b'], [(['j'], ['1'])])] ['b'] ['j'] ['2'])
      ['b'] = some (putKey [(['j'], ['1'])] ['j'] ['2']) ∧
    lookupKey (putKey [(['j'], ['1'])] ['j'] ['2']) ['j'] = some ['2'] :=
  claim_C3 _ _ _ _ _ _ (by decide) (by decide) (by decide) (by decide)
    (by decide) (by decide)

/-- Claim C4 counterexample: the listing does not round-trip for every set of
buckets and entries: bucket "b" holding key "k" with the empty value renders
as the lines "b" and "\tk => ", and the entry line fails the two-group
pattern, so the entry is lost on the way back. -/
theorem claim_C4_cex :
    parseBack (renderStore [(['b'], [(['k'], [])])]) ≠
      [(['b'], [(['k'], [])])] := by
  decide

/-- Claim C4 (amended): the listing round-trips — rendering every bucket as a
bare name line and every entry as "\tkey => value", then parsing the lines
back with the two-group entry pattern, reproduces the store exactly —
provided no bucket name begins with a space or tab, every key is nonempty,
free of ' ', '=' and '\n' and does not begin with a tab, and every value is
nonempty, free of '\n' and does not begin with a space or tab. -/
theorem claim_C4 (s : Store) (hgs : goodStore s = true) :
    parseBack (renderStore s) = s := by
  unfold parseBack
  rw [foldl_render s [] hgs]
  simp

theorem claim_C4_wit :
    parseBack (renderStore
      [(['b'], [(['k'], ['v', ' ', 'w'])]), (['c'], [])]) =
      [(['b'], [(['k'], ['v', ' ', 'w'])]), (['c'], [])] :=
  claim_C4 _ (by decide)

/-- Claim C5: an input line that begins with a space or tab (an editor line
never contains '\n', whence the `isDot` hypothesis) but fails the entry
pattern makes both operations return the parse error and leave the store
unchanged; `DeleteBucketOrEntry` moreover deletes no buffer line. -/
theorem claim_C5 (s : Store) (bktname eval : Line)
    (hnl : eval.all isDot = true)
    (hws : startsWs eval = true)
    (hm : EntryRegex eval = none) :
    CreateBucketOrEntry bktname eval s = (s, some matchFailMsg) ∧
    DeleteBucketOrEntry bktname eval s = (s, false, some matchFailMsg) := by
  have hh : HasLeadingSpace eval = true := by
    rw [hasLeadingSpace_eq, hws, hnl]
    rfl
  constructor
  · simp [CreateBucketOrEntry, hh, hm]
  · simp [DeleteBucketOrEntry, hh, hm]

theorem claim_C5_wit :
    CreateBucketOrEntry ['b'] ['\t', 'x'] [] = ([], some matchFailMsg) ∧
    DeleteBucketOrEntry ['b'] ['\t', 'x'] [] = ([], false, some matchFailMsg) :=
  claim_C5 [] ['b'] ['\t', 'x'] (by decide) (by decide) (by decide)

/-- Claim C6 counterexample: creating via the bucket line "b" when bucket "b"
already exists reports no conflict error (and the code has no overwrite
mode): it returns success with the store unchanged. -/
theorem claim_C6_cex :
    CreateBucketOrEntry ['b'] ['b'] [(['b'], [])] = ([(['b'], [])], none) := by
  decide

/-- Claim C6 (amended): creating a bucket that already exists succeeds
silently as a no-op (create-if-not-exists semantics); no conflict error is
reported and no overwrite mode exists. -/
theorem claim_C6 (s : Store) (bktname eval : Line) (es : Entries)
    (hws : HasLeadingSpace eval = false)
    (hb : lookupBucket s bktname = some es) :
    CreateBucketOrEntry bktname eval s = (s, none) := by
  by_cases hbn : bktname = []
  · simp [CreateBucketOrEntry, hws, createBucketIfNotExists, hbn]
  · simp [CreateBucketOrEntry, hws, createBucketIfNotExists, hbn, hb]

theorem claim_C6_wit :
    CreateBucketOrEntry ['c'] ['c'] [(['c'], [(['k'], ['v'])])] =
      ([(['c'], [(['k'], ['v'])])], none) :=
  claim_C6 [(['c'], [(['k'], ['v'])])] ['c'] ['c'] [(['k'], ['v'])]
    (by decide) (by decide)

/-- Claim C7: whenever the external store open fails, `CreateBolt` and
`LoadBolt` each report the fixed "failed to open bolt" error, regardless of
the underlying failure. -/
theorem claim_C7 :
    (∀ e : String, CreateBolt (.error e) = some openFailMsg) ∧
    (∀ e : String, LoadBolt (.error e) = .error openFailMsg) :=
  ⟨fun _ => rfl, fun _ => rfl⟩

theorem claim_C7_wit :
    CreateBolt (.error "no such file") = some openFailMsg ∧
    LoadBolt (.error "no such file") = .error openFailMsg :=
  ⟨claim_C7.1 "no such file", claim_C7.2 "no such file"⟩

/-- Claim C8: deleting a well-formed entry line whose context bucket is
absent first creates that bucket (create-if-not-exists) and returns success,
so a delete-entry operation adds a new empty bucket to the store.  bbolt
rejects the empty bucket name, whence `bktname ≠ []`. -/
theorem claim_C8 (s : Store) (bktname eval key value : Line)
    (hws : HasLeadingSpace eval = true)
    (hm : EntryRegex eval = some (key, value))
    (hb : lookupBucket s bktname = none)
    (hbn : bktname ≠ []) :
    DeleteBucketOrEntry bktname eval s = (s ++ [(bktname, [])], true, none) ∧
    lookupBucket (s ++ [(bktname, [])]) bktname = some [] := by
  refine ⟨?_, lookupBucket_append hb⟩
  have h1 := @delBucketKey_append s bktname key ([] : Entries) hb
  simp [DeleteBucketOrEntry, hws, hm, createBucketIfNotExists, hbn, hb, h1,
    delKey]

theorem claim_C8_wit :
    DeleteBucketOrEntry ['b'] ['\t', 'k', ' ', '=', '>', ' ', 'v'] [] =
      ([(['b'], [])], true, none) ∧
    lookupBucket [(['b'], [])] ['b'] = some [] :=
  claim_C8 [] ['b'] ['\t', 'k', ' ', '=', '>', ' ', 'v'] ['k'] ['v']
    (by decide) (by decide) (by decide) (by decide)

/-- Claim C9: `CreateBucketOrEntry` returns nil for every non-indented bucket
line and for every indented line matching the entry pattern, even when the
underlying `db.Update` transaction fails: the error result of the update is
discarded in both the create-entry and create-bucket branches. -/
theorem claim_C9 (s : Store) (bktname eval : Line) :
    (HasLeadingSpace eval = false →
      (CreateBucketOrEntry bktname eval s).2 = none) ∧
    (∀ key value, HasLeadingSpace eval = true →
      EntryRegex eval = some (key, value) →
      (CreateBucketOrEntry bktname eval s).2 = none) := by
  constructor
  · intro h
    simp [CreateBucketOrEntry, h]
  · intro key value h hm
    simp [CreateBucketOrEntry, h, hm]

theorem claim_C9_wit :
    (CreateBucketOrEntry [] ['b'] []).2 = none ∧
    (CreateBucketOrEntry ['b'] ['\t', ' ', '=', '>', ' ', 'v'] []).2 = none :=
  ⟨(claim_C9 [] [] ['b']).1 (by decide),
   (claim_C9 [] ['b'] ['\t', ' ', '=', '>', ' ', 'v']).2 [] ['v']
     (by decide) (by decide)⟩

/-- Claim C10: deleting via a bucket line naming an absent bucket succeeds as
a no-op: no error is returned, the store is unchanged, and the buffer line is
not deleted. -/
theorem claim_C10 (s : Store) (bktname eval : Line)
    (hws : HasLeadingSpace eval = false)
    (hb : lookupBucket s bktname = none) :
    DeleteBucketOrEntry bktname eval s = (s, false, none) := by
  simp [DeleteBucketOrEntry, hws, hb]

theorem claim_C10_wit :
    DeleteBucketOrEntry ['b'] ['x'] [(['c'], [])] =
      ([(['c'], [])], false, none) :=
  claim_C10 [(['c'], [])] ['b'] ['x'] (by decide) (by decide)

end Boltviewer
